import Mathlib

/-!
# Verification of `fibercnn/modeling/fiberwidth_head.py`

A shallow embedding of the fiber-width regression head: the loss function
`fiberwidth_loss`, the inference post-processing `fiberwidth_inference`, and
the network module `FiberWidthHeadFC` (its construction, its `forward` pass at
the shape level, and at the value level for the fully-connected stack).

Tensor values are modelled over `ℚ`.  A PyTorch tensor of shape `(N, K)` is a
`Tensor2` (flat row-major data plus shape metadata); per-image `Instances`
containers carry a length and optional `gt_fiberwidth` / `pred_fiberwidth`
fields (`Option` models presence of the attribute).  Python exceptions are
`Except PyError`; the process-wide counter `_TOTAL_SKIPPED` together with the
detectron2 event storage is the explicit `World` state threaded through
`fiberwidth_loss`.
-/

set_option autoImplicit false

namespace FiberCNN

/-- A Python `AttributeError` (missing field on an `Instances` object) or a
`RuntimeError` raised by the torch runtime (shape mismatch in `view`, `split`,
or a linear layer). -/
inductive PyError
  | attributeError (field : String)
  | runtimeError (msg : String)
deriving DecidableEq, Repr

/-- A 2-D tensor of shape `(n, k)`: row-major flat data plus shape metadata.
Well-formed tensors satisfy `data.length = n * k`. -/
structure Tensor2 where
  n : ℕ
  k : ℕ
  data : List ℚ
deriving DecidableEq, Repr

/-- The rows of an `(n, k)` tensor: `n` consecutive slices of width `k`. -/
def chunkRows (k : ℕ) : ℕ → List ℚ → List (List ℚ)
  | 0, _ => []
  | n + 1, d => d.take k :: chunkRows k n (d.drop k)

/-- View a `Tensor2` as its list of rows (slices along dimension 0). -/
def Tensor2.rows (t : Tensor2) : List (List ℚ) := chunkRows t.k t.n t.data

/-- A per-image `Instances` container (detectron2): `len` is the number of
instances; `gt_fiberwidth` (resp. `pred_fiberwidth`) is the ground-truth
(resp. predicted) fiber-width field, `none` when the attribute is absent.
`gt_fiberwidth` is stored as its flattened (`.view(-1)`) value list;
`pred_fiberwidth` as a list of rows of the attached `(len, 1)` chunk. -/
structure Instances where
  len : ℕ
  gt_fiberwidth : Option (List ℚ)
  pred_fiberwidth : Option (List (List ℚ))
deriving DecidableEq, Repr

/-- The mutable process-wide state touched by `fiberwidth_loss`: the module
counter `_TOTAL_SKIPPED` and the detectron2 event storage, modelled as the
list of `put_scalar` events (metric name, value). -/
structure World where
  skipped : ℕ
  storage : List (String × ℕ)
deriving DecidableEq, Repr

/-- `F.mse_loss(pred, target)` with the default mean reduction: the mean of
elementwise squared differences (both tensors have the same shape when it is
called, so the flat data lists line up). -/
def mse_loss (pred target : List ℚ) : ℚ :=
  ((List.zipWith (fun a b => (a - b) ^ 2) pred target).sum) / (pred.length : ℚ)

/-- The loop of `fiberwidth_loss` collecting `instances_per_image.gt_fiberwidth.view(-1)`
for each image with at least one instance, skipping empty images, and raising
`AttributeError` when a non-empty image lacks the field. -/
def collect_fiberwidths : List Instances → Except PyError (List (List ℚ))
  | [] => .ok []
  | ipi :: rest =>
    if ipi.len = 0 then collect_fiberwidths rest
    else
      match ipi.gt_fiberwidth with
      | none => .error (.attributeError "gt_fiberwidth")
      | some t =>
        match collect_fiberwidths rest with
        | .error e => .error e
        | .ok tail => .ok (t :: tail)

/-- `fiberwidth_loss(pred_fiberwidths, instances)`.  Collects the per-image
ground truths in image order; if every image is empty, increments the global
skip counter, emits the `fiberwidth_num_skipped_batches` metric, and returns
`pred_fiberwidths.sum() * 0`; otherwise concatenates the ground truths
(`cat(fiberwidths, dim=0)`), reshapes them with `view(N, K)` (a torch
`RuntimeError` when the element count is not `N * K`), and returns the
mean-squared error against the predictions.  The `World` state is returned
alongside the result; an exception leaves it unchanged. -/
def fiberwidth_loss (pred_fiberwidths : Tensor2) (instances : List Instances)
    (w : World) : Except PyError ℚ × World :=
  match collect_fiberwidths instances with
  | .error e => (.error e, w)
  | .ok fiberwidths =>
    if fiberwidths.length = 0 then
      let skipped := w.skipped + 1
      (.ok (pred_fiberwidths.data.sum * 0),
       ⟨skipped, w.storage ++ [("fiberwidth_num_skipped_batches", skipped)]⟩)
    else
      let fiberwidth_targets := fiberwidths.flatten
      if fiberwidth_targets.length = pred_fiberwidths.n * pred_fiberwidths.k then
        (.ok (mse_loss pred_fiberwidths.data fiberwidth_targets), w)
      else
        (.error (.runtimeError "view: shape mismatch"), w)

/-- `Tensor.split(sizes, dim=0)` splits into consecutive row chunks of the
given sizes (the enclosing `torch_split` checks that the sizes sum to the
dimension-0 extent). -/
def splitChunks : List (List ℚ) → List ℕ → List (List (List ℚ))
  | _, [] => []
  | rows, s :: rest => rows.take s :: splitChunks (rows.drop s) rest

/-- `torch.Tensor.split` with a list of sizes along dimension 0: raises a
`RuntimeError` unless the sizes sum exactly to the size of that dimension. -/
def torch_split (t : Tensor2) (sizes : List ℕ) : Option (List (List (List ℚ))) :=
  if sizes.sum = t.n then some (splitChunks t.rows sizes) else none

/-- `fiberwidth_inference(pred_fiberwidths, pred_instances)`: detaches the
predictions, splits them by the per-image instance counts, and attaches chunk
`i` to container `i` as the `pred_fiberwidth` field.  Returns the updated
containers, or `none` when `split` raises (in which case no container is
touched, since the exception precedes the attachment loop). -/
def fiberwidth_inference (pred_fiberwidths : Tensor2)
    (pred_instances : List Instances) : Option (List Instances) :=
  let num_instances_per_image := pred_instances.map (·.len)
  match torch_split pred_fiberwidths num_instances_per_image with
  | none => none
  | some chunks =>
    some (List.zipWith
      (fun fiberwidth_results_per_image instances_per_image =>
        { instances_per_image with pred_fiberwidth := some fiberwidth_results_per_image })
      chunks pred_instances)

/-! ## The `FiberWidthHeadFC` module, shape level -/

/-- The configuration options read from `cfg.MODEL.ROI_FIBERWIDTH_HEAD`. -/
structure FiberCfg where
  num_conv : ℕ
  conv_dim : ℕ
  num_fc : ℕ
  fc_dim : ℕ
  norm : String
deriving DecidableEq, Repr

/-- detectron2 `ShapeSpec`: the construction-time per-instance input shape. -/
structure ShapeSpec where
  channels : ℕ
  height : ℕ
  width : ℕ
deriving DecidableEq, Repr

/-- Shape signature of one `Conv2d` block (stride 1, dilation 1; the norm,
bias and activation of the block do not affect shapes). -/
structure ConvSpec where
  in_channels : ℕ
  out_channels : ℕ
  kernel_size : ℕ
  padding : ℕ
deriving DecidableEq, Repr

/-- Shape signature of one `nn.Linear` layer. -/
structure LinearSpec where
  in_features : ℕ
  out_features : ℕ
deriving DecidableEq, Repr

/-- The running `self._output_size` of the head: a `(channels, height, width)`
triple while convs are being stacked, a flat dimension once an fc layer has
been appended. -/
inductive OutSize
  | spatial (c h w : ℕ)
  | flat (d : ℕ)
deriving DecidableEq, Repr

/-- `np.prod(self._output_size)`: product of the triple, or the flat size. -/
def OutSize.prod : OutSize → ℕ
  | .spatial c h w => c * h * w
  | .flat d => d

/-- A tensor shape as tracked by `forward`: 4-D `(n, c, h, w)` feature maps or
2-D `(n, d)` flattened features. -/
inductive TShape
  | t4 (n c h w : ℕ)
  | t2 (n d : ℕ)
deriving DecidableEq, Repr

/-- `x.dim()`. -/
def TShape.dim : TShape → ℕ
  | .t4 _ _ _ _ => 4
  | .t2 _ _ => 2

/-- `torch.flatten(x, start_dim=1)` on shapes. -/
def TShape.flatten1 : TShape → TShape
  | .t4 n c h w => .t2 n (c * h * w)
  | .t2 n d => .t2 n d

/-- Output shape of a `Conv2d` block: requires matching input channels and a
padded extent at least the kernel size (otherwise the torch runtime raises),
and maps spatial extent `h` to `h + 2 * padding + 1 - kernel_size`.  A conv on
a non-4-D input raises. -/
def conv2d_shape (c : ConvSpec) : TShape → Option TShape
  | .t4 n ch h w =>
    if ch = c.in_channels ∧ c.kernel_size ≤ h + 2 * c.padding
        ∧ c.kernel_size ≤ w + 2 * c.padding then
      some (.t4 n c.out_channels (h + 2 * c.padding + 1 - c.kernel_size)
        (w + 2 * c.padding + 1 - c.kernel_size))
    else none
  | .t2 _ _ => none

/-- Output shape of `nn.Linear`: applied along the last dimension, raising on
an input-feature mismatch. -/
def linear_shape (l : LinearSpec) : TShape → Option TShape
  | .t2 n d => if d = l.in_features then some (.t2 n l.out_features) else none
  | .t4 n c h w => if w = l.in_features then some (.t4 n c h l.out_features) else none

/-- The loop `for layer in self.conv_norm_relus: x = layer(x)` on shapes. -/
def applyConvShapes : List ConvSpec → TShape → Option TShape
  | [], x => some x
  | c :: cs, x =>
    match conv2d_shape c x with
    | none => none
    | some y => applyConvShapes cs y

/-- The loop `for layer in self.fcs: x = F.relu(layer(x))` on shapes (the
ReLU does not change shapes). -/
def applyFcShapes : List LinearSpec → TShape → Option TShape
  | [], x => some x
  | l :: ls, x =>
    match linear_shape l x with
    | none => none
    | some y => applyFcShapes ls y

/-- The constructed head: the conv blocks, the fc layers (always ending in the
final single-output layer), and the final `self._output_size`, exposed by the
`output_size` property. -/
structure FiberWidthHeadFC where
  conv_norm_relus : List ConvSpec
  fcs : List LinearSpec
  output_size : OutSize
deriving DecidableEq, Repr

/-- The `for k in range(num_conv)` construction loop: each iteration creates a
3×3, padding-1 conv from the running channel count to `conv_dim` and sets the
running size's channels to `conv_dim`.  Returns the blocks and the final
running `(c, h, w)` size. -/
def buildConvs (conv_dim : ℕ) : ℕ → ℕ × ℕ × ℕ → List ConvSpec × (ℕ × ℕ × ℕ)
  | 0, sz => ([], sz)
  | k + 1, sz =>
    let conv : ConvSpec := ⟨sz.1, conv_dim, 3, 1⟩
    let rest := buildConvs conv_dim k (conv_dim, sz.2.1, sz.2.2)
    (conv :: rest.1, rest.2)

/-- The `for k in range(num_fc)` construction loop: each iteration creates
`nn.Linear(np.prod(self._output_size), fc_dim)` and sets the running size to
`fc_dim`.  Returns the layers and the final running size. -/
def buildFcs (fc_dim : ℕ) : ℕ → OutSize → List LinearSpec × OutSize
  | 0, sz => ([], sz)
  | k + 1, sz =>
    let fc : LinearSpec := ⟨sz.prod, fc_dim⟩
    let rest := buildFcs fc_dim k (.flat fc_dim)
    (fc :: rest.1, rest.2)

/-- `FiberWidthHeadFC.__init__`: asserts `num_conv + num_fc > 0` (`none` on
assertion failure), stacks `num_conv` conv blocks then `num_fc` fc layers,
appends the final `nn.Linear(fc_dim, 1)`, and sets `_output_size = 1`.
(Weight initialisation touches values only, not the structure.) -/
def FiberWidthHeadFC.make (cfg : FiberCfg) (input_shape : ShapeSpec) :
    Option FiberWidthHeadFC :=
  if 0 < cfg.num_conv + cfg.num_fc then
    let sz0 := (input_shape.channels, input_shape.height, input_shape.width)
    let convsOut := buildConvs cfg.conv_dim cfg.num_conv sz0
    let fcsOut := buildFcs cfg.fc_dim cfg.num_fc
      (.spatial convsOut.2.1 convsOut.2.2.1 convsOut.2.2.2)
    let finalFc : LinearSpec := ⟨cfg.fc_dim, 1⟩
    some ⟨convsOut.1, fcsOut.1 ++ [finalFc], .flat 1⟩
  else none

/-- `FiberWidthHeadFC.forward` on shapes: apply the conv blocks in order; if
`self.fcs` is non-empty (it always is for a constructed head), flatten from
dimension 1 when `x.dim() > 2`, then apply each fc layer (each followed by a
shape-preserving ReLU). -/
def FiberWidthHeadFC.forwardShape (head : FiberWidthHeadFC) (x : TShape) :
    Option TShape :=
  match applyConvShapes head.conv_norm_relus x with
  | none => none
  | some y =>
    if head.fcs.length ≠ 0 then
      applyFcShapes head.fcs (if 2 < y.dim then y.flatten1 else y)
    else some y

/-! ## The `FiberWidthHeadFC` module, value level (fully-connected stack)

The conv blocks are host-framework layers (detectron2 `Conv2d` with norm and
ReLU); their pointwise values are opaque here, so a value-level head carries
them as abstract batched tensor transformations.  The fc stack is modelled
exactly: `nn.Linear` is an affine map, and `F.relu` clamps at zero. -/

/-- A 3-D tensor value (one per-instance feature map): channels × rows × cols. -/
abbrev Tensor3 := List (List (List ℚ))

/-- Weights of one `nn.Linear` layer: `weight` has one row for each output
feature, `bias` one entry for each output feature. -/
structure LinearLayer where
  weight : List (List ℚ)
  bias : List ℚ
deriving DecidableEq, Repr

/-- Dot product of two coordinate lists. -/
def dotQ (a b : List ℚ) : ℚ := (List.zipWith (· * ·) a b).sum

/-- `nn.Linear` applied to one feature vector: `W x + b`. -/
def linearApply (l : LinearLayer) (x : List ℚ) : List ℚ :=
  List.zipWith (fun row b => dotQ row x + b) l.weight l.bias

/-- `F.relu` on one scalar. -/
def reluQ (x : ℚ) : ℚ := max x 0

/-- One iteration of the fc loop: `x = F.relu(layer(x))` on one row. -/
def fcStep (x : List ℚ) (l : LinearLayer) : List ℚ := (linearApply l x).map reluQ

/-- `torch.flatten(x, start_dim=1)` on one batch element. -/
def flatten3 (t : Tensor3) : List ℚ := (t.map (fun plane => plane.flatten)).flatten

/-- A batched tensor value: 4-D (a batch of feature maps) or 2-D (a batch of
feature vectors). -/
inductive TensorV
  | t4 (x : List Tensor3)
  | t2 (x : List (List ℚ))
deriving DecidableEq, Repr

/-- A constructed head at the value level: abstract conv blocks and concrete
fc layers (always ending in the final single-output layer). -/
structure FiberWidthHeadFCV where
  conv_norm_relus : List (List Tensor3 → List Tensor3)
  fcs : List LinearLayer

/-- `FiberWidthHeadFC.__init__` at the value level: the `k`-th conv block and
`k`-th fc layer take whatever parameters initialisation produced (supplied by
`convInit` / `fcInit`; `finalInit` is the final `nn.Linear(fc_dim, 1)`).
Mirrors the structure of the constructor: the assertion, `num_conv` conv
blocks, `num_fc` fc layers, plus the appended final layer. -/
def FiberWidthHeadFCV.make (cfg : FiberCfg)
    (convInit : ℕ → (List Tensor3 → List Tensor3))
    (fcInit : ℕ → LinearLayer) (finalInit : LinearLayer) :
    Option FiberWidthHeadFCV :=
  if 0 < cfg.num_conv + cfg.num_fc then
    some ⟨(List.range cfg.num_conv).map convInit,
          (List.range cfg.num_fc).map fcInit ++ [finalInit]⟩
  else none

/-- `FiberWidthHeadFC.forward` at the value level: apply the conv blocks; if
`self.fcs` is non-empty, flatten each batch element (the input is a batch of
feature maps, and conv blocks keep it 4-D, so `x.dim() > 2` holds there) and
run every row through the fc/ReLU loop. -/
def FiberWidthHeadFCV.forward (head : FiberWidthHeadFCV) (x : List Tensor3) :
    TensorV :=
  let y := head.conv_norm_relus.foldl (fun t f => f t) x
  if head.fcs.length ≠ 0 then
    .t2 ((y.map flatten3).map (fun v => head.fcs.foldl fcStep v))
  else .t4 y

/-! ## Helper lemmas: the loss collection loop -/

/-- When every image is empty the collection loop gathers nothing. -/
theorem collect_fiberwidths_all_empty (instances : List Instances)
    (h : ∀ i ∈ instances, i.len = 0) :
    collect_fiberwidths instances = .ok [] := by
  induction instances with
  | nil => rfl
  | cons a rest ih =>
    have ha : a.len = 0 := h a (List.mem_cons_self a rest)
    simp only [collect_fiberwidths, ha, if_pos rfl]
    exact ih fun i hi => h i (List.mem_cons_of_mem a hi)

/-- The collection loop raises `AttributeError` exactly when some non-empty
image lacks the `gt_fiberwidth` field. -/
theorem collect_fiberwidths_error_iff (instances : List Instances) :
    collect_fiberwidths instances = .error (.attributeError "gt_fiberwidth") ↔
      ∃ i ∈ instances, i.len ≠ 0 ∧ i.gt_fiberwidth = none := by
  induction instances with
  | nil => simp [collect_fiberwidths]
  | cons a rest ih =>
    by_cases ha : a.len = 0
    · simp only [collect_fiberwidths, if_pos ha, ih]
      constructor
      · rintro ⟨i, hi, h1, h2⟩; exact ⟨i, List.mem_cons_of_mem a hi, h1, h2⟩
      · rintro ⟨i, hi, h1, h2⟩
        rcases List.mem_cons.mp hi with rfl | hi
        · exact absurd ha h1
        · exact ⟨i, hi, h1, h2⟩
    · simp only [collect_fiberwidths, if_neg ha]
      cases hgt : a.gt_fiberwidth with
      | none =>
        simp only [true_iff]
        exact ⟨a, List.mem_cons_self a rest, ha, hgt⟩
      | some t =>
        cases hrest : collect_fiberwidths rest with
        | error e =>
          constructor
          · intro he
            have he2 : e = .attributeError "gt_fiberwidth" := Except.error.inj he
            rcases ih.mp (he2 ▸ hrest) with ⟨i, hi, h1, h2⟩
            exact ⟨i, List.mem_cons_of_mem a hi, h1, h2⟩
          · rintro ⟨i, hi, h1, h2⟩
            rcases List.mem_cons.mp hi with rfl | hi
            · rw [hgt] at h2; exact absurd h2 (by simp)
            · have := ih.mpr ⟨i, hi, h1, h2⟩
              rw [this] at hrest
              rw [Except.error.inj hrest]
        | ok tail =>
          constructor
          · intro he; exact absurd he (by simp)
          · rintro ⟨i, hi, h1, h2⟩
            rcases List.mem_cons.mp hi with rfl | hi
            · rw [hgt] at h2; exact absurd h2 (by simp)
            · have := ih.mpr ⟨i, hi, h1, h2⟩
              rw [this] at hrest
              exact absurd hrest (by simp)

/-- If some image is non-empty and the collection loop succeeds, it gathered
at least one ground-truth tensor. -/
theorem collect_fiberwidths_ok_ne_nil (instances : List Instances)
    (L : List (List ℚ)) (hne : ∃ i ∈ instances, i.len ≠ 0)
    (hok : collect_fiberwidths instances = .ok L) : L ≠ [] := by
  induction instances generalizing L with
  | nil => rcases hne with ⟨i, hi, _⟩; exact absurd hi (List.not_mem_nil i)
  | cons a rest ih =>
    by_cases ha : a.len = 0
    · simp only [collect_fiberwidths, if_pos ha] at hok
      rcases hne with ⟨i, hi, h1⟩
      rcases List.mem_cons.mp hi with rfl | hi
      · exact absurd ha h1
      · exact ih _ ⟨i, hi, h1⟩ hok
    · simp only [collect_fiberwidths, if_neg ha] at hok
      cases hgt : a.gt_fiberwidth with
      | none => rw [hgt] at hok; exact absurd hok (by simp)
      | some t =>
        rw [hgt] at hok
        cases hrest : collect_fiberwidths rest with
        | error e => rw [hrest] at hok; exact absurd hok (by simp)
        | ok tail =>
          rw [hrest] at hok
          have hl : t :: tail = L := Except.ok.inj hok
          rw [← hl]; simp

/-- When every non-empty image carries the `gt_fiberwidth` field, the
collection loop returns exactly the fields of the non-empty images, in
image order. -/
theorem collect_fiberwidths_ok (instances : List Instances)
    (hgt : ∀ i ∈ instances, i.len ≠ 0 → i.gt_fiberwidth ≠ none) :
    collect_fiberwidths instances =
      .ok ((instances.filter (fun i => i.len != 0)).map
        (fun i => i.gt_fiberwidth.getD [])) := by
  induction instances with
  | nil => rfl
  | cons a rest ih =>
    have ihr := ih fun i hi => hgt i (List.mem_cons_of_mem a hi)
    by_cases ha : a.len = 0
    · simp only [collect_fiberwidths, if_pos ha, ihr, List.filter_cons]
      simp [ha]
    · have hgta := hgt a (List.mem_cons_self a rest) ha
      cases hgtv : a.gt_fiberwidth with
      | none => exact absurd hgtv hgta
      | some t =>
        simp only [collect_fiberwidths, if_neg ha, hgtv, ihr, List.filter_cons]
        have : (a.len != 0) = true := by simpa using ha
        simp [this, hgtv]

/-- `fiberwidth_loss` depends on the instance containers only through each
image's instance count and, for non-empty images, its `gt_fiberwidth`
field.  (In particular the field of an empty image is never read.) -/
def agree_on_gt : List Instances → List Instances → Prop
  | [], [] => True
  | a :: as, b :: bs =>
    a.len = b.len ∧ (a.len ≠ 0 → a.gt_fiberwidth = b.gt_fiberwidth) ∧ agree_on_gt as bs
  | _, _ => False

/-- The collection loop is invariant under `agree_on_gt`. -/
theorem collect_fiberwidths_agree (as bs : List Instances)
    (h : agree_on_gt as bs) :
    collect_fiberwidths as = collect_fiberwidths bs := by
  induction as generalizing bs with
  | nil => cases bs with
    | nil => rfl
    | cons b bs => exact absurd h (by simp [agree_on_gt])
  | cons a as ih =>
    cases bs with
    | nil => exact absurd h (by simp [agree_on_gt])
    | cons b bs =>
      obtain ⟨hlen, hgt, hrest⟩ := h
      by_cases ha : a.len = 0
      · simp only [collect_fiberwidths, if_pos ha, if_pos (hlen ▸ ha), ih bs hrest]
      · simp only [collect_fiberwidths, if_neg ha, if_neg (hlen ▸ ha : ¬b.len = 0),
          ← hgt ha, ih bs hrest]

/-- Dropping empty images does not change the total instance count. -/
theorem sum_map_filter_len (l : List Instances) :
    ((l.filter (fun i => i.len != 0)).map (·.len)).sum = (l.map (·.len)).sum := by
  induction l with
  | nil => rfl
  | cons a rest ih =>
    by_cases ha : a.len = 0
    · simp [List.filter_cons, ha, ih]
    · simp [List.filter_cons, ha, ih]

/-- The skip branch of `fiberwidth_loss`: on an all-empty batch it returns
`pred_fiberwidths.sum() * 0 = 0`, bumps the counter, and logs the metric. -/
theorem fiberwidth_loss_skip_eq (pred : Tensor2) (inst : List Instances)
    (w : World) (h : ∀ i ∈ inst, i.len = 0) :
    fiberwidth_loss pred inst w =
      (.ok 0, ⟨w.skipped + 1,
        w.storage ++ [("fiberwidth_num_skipped_batches", w.skipped + 1)]⟩) := by
  simp [fiberwidth_loss, collect_fiberwidths_all_empty inst h]

/-! ## Claim theorems: the loss function -/

/-- C2: on a batch with at least one instance, where every non-empty image
carries a `gt_fiberwidth` of one scalar per instance and the instance counts
sum to `N` (the batch dimension of the `(N, 1)` prediction tensor),
`fiberwidth_loss` returns exactly the mean-squared error between the
predictions and the concatenation, in image order and per-image instance
order, of the ground-truth scalars, leaving the world state unchanged. -/
theorem fiberwidth_loss_mse_eq (pred : Tensor2) (instances : List Instances)
    (w : World)
    (hne : ∃ i ∈ instances, i.len ≠ 0)
    (hgt : ∀ i ∈ instances, i.len ≠ 0 →
      i.gt_fiberwidth ≠ none ∧ (i.gt_fiberwidth.getD []).length = i.len)
    (hn : (instances.map (·.len)).sum = pred.n)
    (hk : pred.k = 1) :
    fiberwidth_loss pred instances w =
      (.ok (mse_loss pred.data
        (((instances.filter (fun i => i.len != 0)).map
          (fun i => i.gt_fiberwidth.getD [])).flatten)), w) := by
  have hcol := collect_fiberwidths_ok instances (fun i hi h => (hgt i hi h).1)
  set L := (instances.filter (fun i => i.len != 0)).map
    (fun i => i.gt_fiberwidth.getD []) with hL
  have hLne : L ≠ [] := collect_fiberwidths_ok_ne_nil instances L hne hcol
  have hlen : L.flatten.length = pred.n * pred.k := by
    rw [hk, mul_one, ← hn, List.length_flatten, hL, List.map_map]
    have hmc : (instances.filter (fun i => i.len != 0)).map
        (List.length ∘ fun i => i.gt_fiberwidth.getD []) =
        (instances.filter (fun i => i.len != 0)).map (·.len) := by
      apply List.map_congr_left
      intro i hi
      have hmem := List.mem_filter.mp hi
      have hlen0 : i.len ≠ 0 := by simpa using hmem.2
      exact (hgt i hmem.1 hlen0).2
    rw [hmc, sum_map_filter_len]
  simp only [fiberwidth_loss, hcol]
  rw [if_neg (by simpa [List.length_eq_zero] using hLne)]
  simp [hlen]

/-- C2 witness: predictions `[1, 2, 3]` against ground truths `[1, 1]` (image
0, two instances), nothing (image 1, empty), `[5]` (image 2, one instance). -/
theorem fiberwidth_loss_mse_eq_witness :
    fiberwidth_loss ⟨3, 1, [1, 2, 3]⟩
      [⟨2, some [1, 1], none⟩, ⟨0, none, none⟩, ⟨1, some [5], none⟩] ⟨0, []⟩ =
      (.ok (mse_loss [1, 2, 3]
        ((([⟨2, some [1, 1], none⟩, ⟨0, none, none⟩,
            ⟨1, some [5], none⟩] : List Instances).filter
              (fun i => i.len != 0)).map
          (fun i => i.gt_fiberwidth.getD [])).flatten), ⟨0, []⟩) :=
  fiberwidth_loss_mse_eq ⟨3, 1, [1, 2, 3]⟩
    [⟨2, some [1, 1], none⟩, ⟨0, none, none⟩, ⟨1, some [5], none⟩] ⟨0, []⟩
    ⟨⟨2, some [1, 1], none⟩, by decide, by decide⟩ (by decide) (by decide) (by decide)

/-- C3: on a batch where every image has zero instances, `fiberwidth_loss`
returns exactly `0` (computed as `pred_fiberwidths.sum() * 0`), increments the
process-wide skip counter by one, and emits the counter value as the
`fiberwidth_num_skipped_batches` metric; a second such call increments the
counter a second time. -/
theorem fiberwidth_loss_skip_counts (pred pred2 : Tensor2)
    (inst inst2 : List Instances) (w : World)
    (h1 : ∀ i ∈ inst, i.len = 0) (h2 : ∀ i ∈ inst2, i.len = 0) :
    fiberwidth_loss pred inst w =
      (.ok 0, ⟨w.skipped + 1,
        w.storage ++ [("fiberwidth_num_skipped_batches", w.skipped + 1)]⟩) ∧
    fiberwidth_loss pred2 inst2 (fiberwidth_loss pred inst w).2 =
      (.ok 0, ⟨w.skipped + 1 + 1,
        w.storage ++ [("fiberwidth_num_skipped_batches", w.skipped + 1)]
          ++ [("fiberwidth_num_skipped_batches", w.skipped + 1 + 1)]⟩) := by
  refine ⟨fiberwidth_loss_skip_eq pred inst w h1, ?_⟩
  rw [fiberwidth_loss_skip_eq pred inst w h1]
  exact fiberwidth_loss_skip_eq pred2 inst2 _ h2

/-- C3 witness: two consecutive all-empty batches starting from a fresh
counter. -/
theorem fiberwidth_loss_skip_counts_witness :
    fiberwidth_loss ⟨2, 1, [1, 2]⟩ [⟨0, none, none⟩] ⟨0, []⟩ =
      (.ok 0, ⟨0 + 1, [] ++ [("fiberwidth_num_skipped_batches", 0 + 1)]⟩) ∧
    fiberwidth_loss ⟨2, 1, [3, 4]⟩ [⟨0, none, none⟩, ⟨0, none, none⟩]
        (fiberwidth_loss ⟨2, 1, [1, 2]⟩ [⟨0, none, none⟩] ⟨0, []⟩).2 =
      (.ok 0, ⟨0 + 1 + 1, [] ++ [("fiberwidth_num_skipped_batches", 0 + 1)]
        ++ [("fiberwidth_num_skipped_batches", 0 + 1 + 1)]⟩) :=
  fiberwidth_loss_skip_counts ⟨2, 1, [1, 2]⟩ ⟨2, 1, [3, 4]⟩
    [⟨0, none, none⟩] [⟨0, none, none⟩, ⟨0, none, none⟩] ⟨0, []⟩
    (by decide) (by decide)

/-- C9: `fiberwidth_loss` raises `AttributeError` on `gt_fiberwidth` exactly
when some image with at least one instance lacks the field, and its entire
behaviour is invariant under changing the `gt_fiberwidth` field of images
with zero instances (the field of an empty image is never read). -/
theorem fiberwidth_loss_gt_field (pred : Tensor2)
    (instances instances2 : List Instances) (w : World)
    (hagree : agree_on_gt instances instances2) :
    ((fiberwidth_loss pred instances w).1 =
        .error (.attributeError "gt_fiberwidth") ↔
      ∃ i ∈ instances, i.len ≠ 0 ∧ i.gt_fiberwidth = none) ∧
    fiberwidth_loss pred instances w = fiberwidth_loss pred instances2 w := by
  constructor
  · rw [← collect_fiberwidths_error_iff]
    cases hcol : collect_fiberwidths instances with
    | error e => simp [fiberwidth_loss, hcol]
    | ok L =>
      simp only [fiberwidth_loss, hcol]
      split
      · simp
      · split <;> simp
  · simp only [fiberwidth_loss, collect_fiberwidths_agree instances instances2 hagree]

/-- C9 witness: a single non-empty image missing `gt_fiberwidth` (hence the
error), compared against a variant batch differing only in the (irrelevant)
field of value on the empty-image positions. -/
theorem fiberwidth_loss_gt_field_witness :
    ((fiberwidth_loss ⟨1, 1, [7]⟩ [⟨1, none, none⟩, ⟨0, none, none⟩] ⟨0, []⟩).1 =
        .error (.attributeError "gt_fiberwidth") ↔
      ∃ i ∈ ([⟨1, none, none⟩, ⟨0, none, none⟩] : List Instances),
        i.len ≠ 0 ∧ i.gt_fiberwidth = none) ∧
    fiberwidth_loss ⟨1, 1, [7]⟩ [⟨1, none, none⟩, ⟨0, none, none⟩] ⟨0, []⟩ =
      fiberwidth_loss ⟨1, 1, [7]⟩ [⟨1, none, none⟩, ⟨0, some [9], none⟩] ⟨0, []⟩ :=
  fiberwidth_loss_gt_field ⟨1, 1, [7]⟩
    [⟨1, none, none⟩, ⟨0, none, none⟩] [⟨1, none, none⟩, ⟨0, some [9], none⟩]
    ⟨0, []⟩ ⟨rfl, fun _ => rfl, rfl, fun h => absurd rfl h, trivial⟩

/-- C10: `fiberwidth_loss` is pure in its tensor and instance arguments (the
embedding threads the only mutable state, the skip counter and the event
storage, through `World`); the world is unchanged whenever some image has an
instance, and is updated exactly by one counter increment plus one metric
event when every image is empty. -/
theorem fiberwidth_loss_frame (pred : Tensor2) (instances : List Instances)
    (w : World) :
    ((∃ i ∈ instances, i.len ≠ 0) →
      (fiberwidth_loss pred instances w).2 = w) ∧
    ((∀ i ∈ instances, i.len = 0) →
      (fiberwidth_loss pred instances w).2 =
        ⟨w.skipped + 1,
          w.storage ++ [("fiberwidth_num_skipped_batches", w.skipped + 1)]⟩) := by
  constructor
  · intro hne
    cases hcol : collect_fiberwidths instances with
    | error e => simp only [fiberwidth_loss, hcol]
    | ok L =>
      have hLne := collect_fiberwidths_ok_ne_nil instances L hne hcol
      simp only [fiberwidth_loss, hcol]
      rw [if_neg (by simpa [List.length_eq_zero] using hLne)]
      split <;> rfl
  · intro hall
    rw [fiberwidth_loss_skip_eq pred instances w hall]

/-- C10 witness: a batch with one non-empty image leaves the world untouched;
the all-empty case is exercised through the second conjunct. -/
theorem fiberwidth_loss_frame_witness :
    (fiberwidth_loss ⟨1, 1, [7]⟩ [⟨1, some [7], none⟩] ⟨5, []⟩).2 = ⟨5, []⟩ :=
  (fiberwidth_loss_frame ⟨1, 1, [7]⟩ [⟨1, some [7], none⟩] ⟨5, []⟩).1
    ⟨⟨1, some [7], none⟩, by decide, by decide⟩

/-! ## Claim theorems: inference post-processing -/

/-- `split` produces one chunk per requested size. -/
theorem splitChunks_length (rows : List (List ℚ)) (sizes : List ℕ) :
    (splitChunks rows sizes).length = sizes.length := by
  induction sizes generalizing rows with
  | nil => rfl
  | cons s rest ih => simp [splitChunks, ih]

/-- Chunk `j` of `split` is the contiguous slice starting at the sum of the
previous sizes. -/
theorem splitChunks_getElem (rows : List (List ℚ)) (sizes : List ℕ) (j : ℕ)
    (hj : j < sizes.length) (hj2 : j < (splitChunks rows sizes).length) :
    (splitChunks rows sizes)[j] =
      (rows.drop ((sizes.take j).sum)).take (sizes[j]) := by
  induction sizes generalizing rows j with
  | nil => exact absurd hj (by simp)
  | cons s rest ih =>
    cases j with
    | zero => simp [splitChunks]
    | succ j =>
      have hj' : j < rest.length := by simpa using hj
      have hj2' : j < (splitChunks (rows.drop s) rest).length := by
        rw [splitChunks_length]; exact hj'
      simp only [splitChunks, List.getElem_cons_succ, List.take_succ_cons,
        List.sum_cons, ih (rows.drop s) j hj' hj2', List.drop_drop]

/-- C5: when the per-image instance counts sum to the batch dimension `N`,
`fiberwidth_inference` succeeds and attaches to container `j` — with its
other fields untouched — exactly the contiguous chunk of prediction rows
starting after the instances of the previous images and as long as container
`j`'s instance count. -/
theorem fiberwidth_inference_chunks (pred : Tensor2) (instances : List Instances)
    (hsum : (instances.map (·.len)).sum = pred.n) :
    ∃ out, fiberwidth_inference pred instances = some out ∧
      out.length = instances.length ∧
      ∀ j (hj : j < instances.length) (hj2 : j < out.length),
        out[j].len = instances[j].len ∧
        out[j].gt_fiberwidth = instances[j].gt_fiberwidth ∧
        out[j].pred_fiberwidth =
          some ((pred.rows.drop (((instances.map (·.len)).take j).sum)).take
            (instances[j].len)) := by
  have hsplit : torch_split pred (instances.map (·.len)) =
      some (splitChunks pred.rows (instances.map (·.len))) := by
    simp [torch_split, hsum]
  refine ⟨List.zipWith
      (fun fiberwidth_results_per_image instances_per_image =>
        { instances_per_image with pred_fiberwidth := some fiberwidth_results_per_image })
      (splitChunks pred.rows (instances.map (·.len))) instances, ?_, ?_, ?_⟩
  · simp only [fiberwidth_inference, hsplit]
  · rw [List.length_zipWith, splitChunks_length]
    simp
  · intro j hj hj2
    have hcl : j < (splitChunks pred.rows (instances.map (·.len))).length := by
      rw [splitChunks_length]; simpa using hj
    rw [List.getElem_zipWith]
    refine ⟨rfl, rfl, ?_⟩
    rw [splitChunks_getElem pred.rows (instances.map (·.len)) j (by simpa using hj) hcl]
    rw [List.getElem_map]

/-- C5 witness: counts `[2, 0, 3]` against a 5-row prediction tensor. -/
theorem fiberwidth_inference_chunks_witness :
    ∃ out, fiberwidth_inference ⟨5, 1, [10, 20, 30, 40, 50]⟩
        [⟨2, none, none⟩, ⟨0, none, none⟩, ⟨3, none, none⟩] = some out ∧
      out.length = ([⟨2, none, none⟩, ⟨0, none, none⟩,
        ⟨3, none, none⟩] : List Instances).length ∧
      ∀ j (hj : j < ([⟨2, none, none⟩, ⟨0, none, none⟩,
            ⟨3, none, none⟩] : List Instances).length) (hj2 : j < out.length),
        out[j].len = ([⟨2, none, none⟩, ⟨0, none, none⟩,
          ⟨3, none, none⟩] : List Instances)[j].len ∧
        out[j].gt_fiberwidth = ([⟨2, none, none⟩, ⟨0, none, none⟩,
          ⟨3, none, none⟩] : List Instances)[j].gt_fiberwidth ∧
        out[j].pred_fiberwidth =
          some (((Tensor2.rows ⟨5, 1, [10, 20, 30, 40, 50]⟩).drop
            (((([⟨2, none, none⟩, ⟨0, none, none⟩,
              ⟨3, none, none⟩] : List Instances).map (·.len)).take j).sum)).take
            (([⟨2, none, none⟩, ⟨0, none, none⟩,
              ⟨3, none, none⟩] : List Instances)[j].len)) :=
  fiberwidth_inference_chunks ⟨5, 1, [10, 20, 30, 40, 50]⟩
    [⟨2, none, none⟩, ⟨0, none, none⟩, ⟨3, none, none⟩] (by decide)

/-- C6: when the per-image instance counts do not sum to the batch dimension,
`torch.split` raises and `fiberwidth_inference` attaches nothing. -/
theorem fiberwidth_inference_mismatch (pred : Tensor2)
    (instances : List Instances)
    (hsum : (instances.map (·.len)).sum ≠ pred.n) :
    fiberwidth_inference pred instances = none := by
  simp [fiberwidth_inference, torch_split, hsum]

/-- C6 witness: counts `[2, 0, 3]` against a 4-row prediction tensor. -/
theorem fiberwidth_inference_mismatch_witness :
    fiberwidth_inference ⟨4, 1, [10, 20, 30, 40]⟩
      [⟨2, none, none⟩, ⟨0, none, none⟩, ⟨3, none, none⟩] = none :=
  fiberwidth_inference_mismatch ⟨4, 1, [10, 20, 30, 40]⟩
    [⟨2, none, none⟩, ⟨0, none, none⟩, ⟨3, none, none⟩] (by decide)

/-! ## Helper lemmas: the head's construction loops and forward pass -/

/-- The running size after the conv loop: channels become `conv_dim` as soon
as one conv block exists; the spatial extent is untouched. -/
theorem buildConvs_snd (d k ch h w : ℕ) :
    (buildConvs d k (ch, h, w)).2 = ((if k = 0 then ch else d), h, w) := by
  induction k generalizing ch with
  | zero => rfl
  | succ k ih => simp [buildConvs, ih]

/-- Applying the constructed conv blocks to a batch of feature maps of the
construction-time shape succeeds (3×3 kernels with padding 1 preserve any
positive spatial extent) and only changes the channel count. -/
theorem buildConvs_apply (d k ch h w n : ℕ) (hhw : k ≠ 0 → 1 ≤ h ∧ 1 ≤ w) :
    applyConvShapes (buildConvs d k (ch, h, w)).1 (.t4 n ch h w) =
      some (.t4 n (if k = 0 then ch else d) h w) := by
  induction k generalizing ch with
  | zero => rfl
  | succ k ih =>
    obtain ⟨h1, w1⟩ := hhw (Nat.succ_ne_zero k)
    have hc : conv2d_shape ⟨ch, d, 3, 1⟩ (.t4 n ch h w) = some (.t4 n d h w) := by
      show (if ch = ch ∧ 3 ≤ h + 2 * 1 ∧ 3 ≤ w + 2 * 1 then
          some (TShape.t4 n d (h + 2 * 1 + 1 - 3) (w + 2 * 1 + 1 - 3))
        else none) = some (.t4 n d h w)
      rw [if_pos ⟨rfl, by omega, by omega⟩]
      have e1 : h + 2 * 1 + 1 - 3 = h := by omega
      have e2 : w + 2 * 1 + 1 - 3 = w := by omega
      rw [e1, e2]
    simp only [buildConvs, applyConvShapes, hc]
    rw [ih d (fun _ => ⟨h1, w1⟩)]
    simp

/-- The running size after the fc loop: it becomes the flat `fc_dim` as soon
as one fc layer exists. -/
theorem buildFcs_snd (f k : ℕ) (sz : OutSize) :
    (buildFcs f k sz).2 = if k = 0 then sz else .flat f := by
  induction k generalizing sz with
  | zero => rfl
  | succ k ih => simp [buildFcs, ih]

/-- Applying the constructed fc layers to features whose width equals the
running size's product succeeds and yields the final running size. -/
theorem buildFcs_apply (f k : ℕ) (sz : OutSize) (n : ℕ) :
    applyFcShapes (buildFcs f k sz).1 (.t2 n sz.prod) =
      some (.t2 n ((buildFcs f k sz).2).prod) := by
  induction k generalizing sz with
  | zero => rfl
  | succ k ih =>
    have hl : linear_shape ⟨sz.prod, f⟩ (.t2 n sz.prod) = some (.t2 n f) := by
      simp [linear_shape]
    simp only [buildFcs, applyFcShapes, hl]
    have hrec := ih (.flat f)
    simpa [OutSize.prod] using hrec

/-- The fc loop over a concatenation runs the two halves in sequence. -/
theorem applyFcShapes_append (l1 l2 : List LinearSpec) (x : TShape) :
    applyFcShapes (l1 ++ l2) x = (applyFcShapes l1 x).bind (applyFcShapes l2) := by
  induction l1 generalizing x with
  | nil => rfl
  | cons a l ih =>
    simp only [List.cons_append, applyFcShapes]
    cases hc : linear_shape a x with
    | none => rfl
    | some y => simp [ih]

/-- The final single-output layer: it maps width-`f` features to width 1 and
raises on any other input width. -/
theorem applyFcShapes_final (f n d : ℕ) :
    applyFcShapes [⟨f, 1⟩] (.t2 n d) = if d = f then some (.t2 n 1) else none := by
  by_cases hd : d = f
  · simp [applyFcShapes, linear_shape, hd]
  · simp [applyFcShapes, linear_shape, hd]

/-- Characterisation of the forward pass of a constructed head on a batch of
`N` feature maps of the construction-time input shape: it reaches the final
single-output layer with flattened width `conv_dim · height · width` when
`num_fc = 0` (the input channel count when additionally `num_conv = 0`) and
`fc_dim` otherwise, and returns shape `(N, 1)` exactly when that width
matches the final layer's expected `fc_dim`. -/
theorem forwardShape_make (cfg : FiberCfg) (s : ShapeSpec)
    (head : FiberWidthHeadFC) (N : ℕ)
    (hmk : FiberWidthHeadFC.make cfg s = some head)
    (hhw : cfg.num_conv = 0 ∨ (1 ≤ s.height ∧ 1 ≤ s.width)) :
    head.forwardShape (.t4 N s.channels s.height s.width) =
      (if (if cfg.num_fc = 0
            then (if cfg.num_conv = 0 then s.channels else cfg.conv_dim)
                  * s.height * s.width
            else cfg.fc_dim) = cfg.fc_dim
        then some (.t2 N 1) else none) := by
  simp only [FiberWidthHeadFC.make] at hmk
  by_cases hpos : 0 < cfg.num_conv + cfg.num_fc
  · rw [if_pos hpos] at hmk
    obtain rfl := Option.some.inj hmk
    have hhw2 : cfg.num_conv ≠ 0 → 1 ≤ s.height ∧ 1 ≤ s.width :=
      fun hnc => hhw.resolve_left hnc
    have hconv := buildConvs_apply cfg.conv_dim cfg.num_conv s.channels s.height
      s.width N hhw2
    have hb := buildFcs_apply cfg.fc_dim cfg.num_fc
      (.spatial (if cfg.num_conv = 0 then s.channels else cfg.conv_dim)
        s.height s.width) N
    rw [buildFcs_snd, apply_ite OutSize.prod] at hb
    simp only [OutSize.prod] at hb
    by_cases hfc : cfg.num_fc = 0
    · have hnc : cfg.num_conv ≠ 0 := by omega
      simp only [FiberWidthHeadFC.forwardShape, hfc, buildFcs, List.nil_append,
        hconv, if_neg hnc, TShape.dim, TShape.flatten1, List.length_cons,
        List.length_nil, ne_eq]
      rw [if_pos (by omega : ¬0 + 1 = 0), if_pos (by omega : (2 : ℕ) < 4),
        applyFcShapes_final]
      simp
    · simp only [FiberWidthHeadFC.forwardShape, buildConvs_snd, hconv,
        if_neg hfc, TShape.dim, TShape.flatten1, List.length_append,
        List.length_cons, List.length_nil, ne_eq, applyFcShapes_append,
        Nat.succ_ne_zero, not_false_eq_true]
      rw [if_pos (by omega : (2 : ℕ) < 4), hb, if_neg hfc, Option.some_bind,
        applyFcShapes_final, if_pos rfl]
      simp
  · rw [if_neg hpos] at hmk
    exact absurd hmk (by simp)

/-! ## Claim theorems: the head module -/

/-- C4: constructing `FiberWidthHeadFC` succeeds exactly when
`num_conv + num_fc > 0` (the assertion fails otherwise), and every
successfully constructed head has `output_size = 1`. -/
theorem head_construction (cfg : FiberCfg) (s : ShapeSpec) :
    (FiberWidthHeadFC.make cfg s ≠ none ↔ 0 < cfg.num_conv + cfg.num_fc) ∧
    ∀ head, FiberWidthHeadFC.make cfg s = some head →
      head.output_size = OutSize.flat 1 := by
  constructor
  · by_cases hpos : 0 < cfg.num_conv + cfg.num_fc
    · simp [FiberWidthHeadFC.make, hpos]
    · simp [FiberWidthHeadFC.make, hpos]
  · intro head hmk
    simp only [FiberWidthHeadFC.make] at hmk
    by_cases hpos : 0 < cfg.num_conv + cfg.num_fc
    · rw [if_pos hpos] at hmk
      exact (Option.some.inj hmk) ▸ rfl
    · rw [if_neg hpos] at hmk
      exact absurd hmk (by simp)

/-- C4 witness: the head built from one conv block and one fc layer exists
and reports `output_size = 1`. -/
theorem head_construction_witness :
    FiberWidthHeadFC.output_size
      ⟨[⟨3, 4, 3, 1⟩], [⟨16, 8⟩, ⟨8, 1⟩], .flat 1⟩ = OutSize.flat 1 :=
  (head_construction ⟨1, 4, 1, 8, ""⟩ ⟨3, 2, 2⟩).2
    ⟨[⟨3, 4, 3, 1⟩], [⟨16, 8⟩, ⟨8, 1⟩], .flat 1⟩ (by decide)

/-- C1 (amended): the forward pass on a batch of `N` feature maps of the
construction-time input shape returns shape `(N, 1)` for every constructed
head whose final layer is reached with its expected input width — that is,
whenever `num_fc > 0`, or `num_fc = 0` and
`conv_dim * height * width = fc_dim` — with positive spatial extent whenever
conv blocks are present.  (The unamended claim is refuted by
`forward_output_shape_cex` below.) -/
theorem forward_output_shape (cfg : FiberCfg) (s : ShapeSpec)
    (head : FiberWidthHeadFC) (N : ℕ)
    (hmk : FiberWidthHeadFC.make cfg s = some head)
    (hhw : cfg.num_conv = 0 ∨ (1 ≤ s.height ∧ 1 ≤ s.width))
    (hfc : 0 < cfg.num_fc ∨ cfg.conv_dim * s.height * s.width = cfg.fc_dim) :
    head.forwardShape (.t4 N s.channels s.height s.width) = some (.t2 N 1) := by
  rw [forwardShape_make cfg s head N hmk hhw]
  rcases hfc with hfc | hfc
  · rw [if_neg (by omega : ¬cfg.num_fc = 0), if_pos rfl]
  · by_cases hnf : cfg.num_fc = 0
    · have hnc : cfg.num_conv ≠ 0 := by
        intro hc
        have := (head_construction cfg s).1.mp (by simp [hmk])
        omega
      rw [if_pos hnf, if_neg hnc, if_pos hfc]
    · rw [if_neg hnf, if_pos rfl]

/-- C1 witness: one conv block and two fc layers on a batch of 5 feature
maps of shape `3 × 2 × 2`. -/
theorem forward_output_shape_witness :
    FiberWidthHeadFC.forwardShape
      ⟨[⟨3, 4, 3, 1⟩], [⟨16, 8⟩, ⟨8, 8⟩, ⟨8, 1⟩], .flat 1⟩ (.t4 5 3 2 2) =
      some (.t2 5 1) :=
  forward_output_shape ⟨1, 4, 2, 8, ""⟩ ⟨3, 2, 2⟩
    ⟨[⟨3, 4, 3, 1⟩], [⟨16, 8⟩, ⟨8, 8⟩, ⟨8, 1⟩], .flat 1⟩ 5 (by decide)
    (Or.inr (by decide)) (Or.inl (by decide))

/-- C1 counterexample: the head built from `num_conv = 1`, `conv_dim = 4`,
`num_fc = 0`, `fc_dim = 8` on a `3 × 2 × 2` input satisfies the construction
contract (`num_conv + num_fc > 0`), yet its forward pass on a batch of 5
matching feature maps raises a shape error (the flattened width `4·2·2 = 16`
does not match the final layer's expected `fc_dim = 8`) instead of returning
shape `(5, 1)`. -/
theorem forward_output_shape_cex :
    FiberWidthHeadFC.make ⟨1, 4, 0, 8, ""⟩ ⟨3, 2, 2⟩ =
      some ⟨[⟨3, 4, 3, 1⟩], [⟨8, 1⟩], .flat 1⟩ ∧
    FiberWidthHeadFC.forwardShape ⟨[⟨3, 4, 3, 1⟩], [⟨8, 1⟩], .flat 1⟩
      (.t4 5 3 2 2) = none := by decide

/-- C8: for every constructed head, the final single-output layer expects
input width `fc_dim` (regardless of `num_conv` and `num_fc`) and the fc list
is never empty; consequently, when `num_fc = 0` (which forces
`num_conv > 0`), the forward pass on matching input raises a runtime shape
error exactly when `conv_dim * height * width ≠ fc_dim`. -/
theorem final_fc_expects_fc_dim (cfg : FiberCfg) (s : ShapeSpec)
    (head : FiberWidthHeadFC) (N : ℕ)
    (hmk : FiberWidthHeadFC.make cfg s = some head)
    (hh : 1 ≤ s.height) (hw : 1 ≤ s.width) :
    head.fcs.getLast? = some ⟨cfg.fc_dim, 1⟩ ∧
    head.fcs ≠ [] ∧
    (cfg.num_fc = 0 →
      0 < cfg.num_conv ∧
      (head.forwardShape (.t4 N s.channels s.height s.width) = none ↔
        cfg.conv_dim * s.height * s.width ≠ cfg.fc_dim)) := by
  have hfs := forwardShape_make cfg s head N hmk (Or.inr ⟨hh, hw⟩)
  simp only [FiberWidthHeadFC.make] at hmk
  by_cases hpos : 0 < cfg.num_conv + cfg.num_fc
  · rw [if_pos hpos] at hmk
    obtain rfl := Option.some.inj hmk
    refine ⟨List.getLast?_concat _, by simp, fun hnf => ?_⟩
    have hnc : 0 < cfg.num_conv := by omega
    refine ⟨hnc, ?_⟩
    rw [hfs, if_pos hnf, if_neg (by omega : ¬cfg.num_conv = 0)]
    by_cases hd : cfg.conv_dim * s.height * s.width = cfg.fc_dim
    · rw [if_pos hd]; simp [hd]
    · rw [if_neg hd]; simp [hd]
  · rw [if_neg hpos] at hmk
    exact absurd hmk (by simp)

/-- C8 witness: `num_fc = 0`, `conv_dim · 2 · 2 = 16 = fc_dim`: the final
layer is `Linear(16, 1)`, the fc list is non-empty, and the forward pass
succeeds exactly because the widths match. -/
theorem final_fc_expects_fc_dim_witness :
    (FiberWidthHeadFC.fcs ⟨[⟨3, 4, 3, 1⟩], [⟨16, 1⟩], .flat 1⟩).getLast? =
      some ⟨16, 1⟩ ∧
    FiberWidthHeadFC.fcs ⟨[⟨3, 4, 3, 1⟩], [⟨16, 1⟩], .flat 1⟩ ≠ [] ∧
    ((0 : ℕ) = 0 →
      (0 : ℕ) < 1 ∧
      (FiberWidthHeadFC.forwardShape ⟨[⟨3, 4, 3, 1⟩], [⟨16, 1⟩], .flat 1⟩
          (.t4 5 3 2 2) = none ↔ 4 * 2 * 2 ≠ 16)) :=
  final_fc_expects_fc_dim ⟨1, 4, 0, 16, ""⟩ ⟨3, 2, 2⟩
    ⟨[⟨3, 4, 3, 1⟩], [⟨16, 1⟩], .flat 1⟩ 5 (by decide) (by decide) (by decide)

/-- Every element produced by a non-empty ReLU-terminated fc stack is
non-negative. -/
theorem foldl_fcStep_nonneg (ls : List LinearLayer) :
    ls ≠ [] → ∀ (v : List ℚ), ∀ y ∈ ls.foldl fcStep v, 0 ≤ y := by
  induction ls with
  | nil => intro h; exact absurd rfl h
  | cons l rest ih =>
    intro _ v y hy
    cases rest with
    | nil =>
      simp only [List.foldl] at hy
      rcases List.mem_map.mp hy with ⟨z, _, rfl⟩
      simp only [reluQ]
      exact le_max_right z 0
    | cons l2 rest2 =>
      simp only [List.foldl] at hy
      exact ih (by simp) (fcStep v l) y hy

/-- C7: in every constructed head each fc layer — the final single-output
layer included — is followed by a ReLU, so whenever the forward pass
produces a 2-D output, every element of it is non-negative. -/
theorem forward_nonneg (cfg : FiberCfg)
    (convInit : ℕ → (List Tensor3 → List Tensor3)) (fcInit : ℕ → LinearLayer)
    (finalInit : LinearLayer) (head : FiberWidthHeadFCV) (x : List Tensor3)
    (rows : List (List ℚ))
    (hmk : FiberWidthHeadFCV.make cfg convInit fcInit finalInit = some head)
    (hfw : head.forward x = .t2 rows) :
    ∀ r ∈ rows, ∀ v ∈ r, 0 ≤ v := by
  simp only [FiberWidthHeadFCV.make] at hmk
  by_cases hpos : 0 < cfg.num_conv + cfg.num_fc
  · rw [if_pos hpos] at hmk
    obtain rfl := Option.some.inj hmk
    simp only [FiberWidthHeadFCV.forward] at hfw
    rw [if_pos (by simp : ¬((List.range cfg.num_fc).map fcInit
      ++ [finalInit]).length = 0)] at hfw
    obtain rfl := (TensorV.t2.inj hfw).symm
    intro r hr v hv
    rcases List.mem_map.mp hr with ⟨v0, _, rfl⟩
    exact foldl_fcStep_nonneg _ (by simp) v0 v hv
  · rw [if_neg hpos] at hmk
    exact absurd hmk (by simp)

/-- C7 witness: a head with one hidden fc layer maps the negative input
feature `-2` to the (clamped, non-negative) output row `[0]`, and the output
element is indeed non-negative. -/
theorem forward_nonneg_witness :
    FiberWidthHeadFCV.forward ⟨[], [⟨[[1]], [0]⟩, ⟨[[(-3 : ℚ)]], [0]⟩]⟩
      [[[[-2]]]] = .t2 [[0]] ∧ (0 : ℚ) ≤ 0 :=
  ⟨by simp [FiberWidthHeadFCV.forward, fcStep, linearApply, dotQ, reluQ,
      flatten3],
   forward_nonneg ⟨0, 0, 1, 1, ""⟩ (fun _ t => t) (fun _ => ⟨[[1]], [0]⟩)
    ⟨[[(-3 : ℚ)]], [0]⟩ ⟨[], [⟨[[1]], [0]⟩, ⟨[[-3]], [0]⟩]⟩ [[[[-2]]]] [[0]]
    rfl (by simp [FiberWidthHeadFCV.forward, fcStep, linearApply, dotQ, reluQ,
      flatten3])
    [0] (by simp) 0 (by simp)⟩

end FiberCNN
